import Mathlib

/-!
# Verification of the US_Stock filing-extraction pipeline

Shallow embedding of the core of the `US_Stock` repository (a resumable,
two-stage SEC-filing extraction pipeline) and proofs about it.

Text is modelled as `List Char`.  The regex boundary markers of
`src/parser.py` are modelled as literal strings; `re.finditer` becomes a
left-to-right non-overlapping scan for the literal, and `re.search(text, pos)`
the first occurrence at or after `pos`.  Python slice semantics (negative
indices, clamping) are modelled explicitly.
-/

namespace USStock

/-- Python `pat.isPrefixOf`-style test at position `i` of `text`. -/
def matchesAt (pat text : List Char) (i : Nat) : Bool :=
  pat.isPrefixOf (text.drop i)

/-- Model of `re.finditer(pattern, text)` for a literal pattern: the list of
`(start, end)` spans of the non-overlapping left-to-right occurrences of
`pat` in `text`, with `i` the absolute position of the head of `text`.
Mirrors `list(pattern.finditer(text))` in `src/parser.py:_best_match`. -/
def findIter (pat : List Char) : List Char → Nat → List (Nat × Nat)
  | [], _ => []
  | c :: rest, i =>
    if pat ≠ [] ∧ pat.isPrefixOf (c :: rest) then
      (i, i + pat.length) :: findIter pat (rest.drop (pat.length - 1)) (i + pat.length)
    else
      findIter pat rest (i + 1)
  termination_by text _ => text.length
  decreasing_by
    · simp only [List.length_drop, List.length_cons]
      omega
    · simp only [List.length_cons]
      omega

/-- Model of `pattern.search(text, start)` for a literal pattern: the
`(start, end)` span of the first occurrence of `pat` in `text` beginning at
position ≥ `start` (`None` if there is none). -/
def searchFrom (pat text : List Char) (start : Nat) : Option (Nat × Nat) :=
  ((List.range (text.length + 1)).find? fun i =>
    decide (start ≤ i) && pat ≠ [] && matchesAt pat text i).map
    fun i => (i, i + pat.length)

/-- `src/parser.py:_best_match`: among all matches, scan from the last
backwards for one leaving more than 2000 characters of trailing text; fall
back to the very last match; `None` when there is no match at all. -/
def bestMatch (text pat : List Char) : Option (Nat × Nat) :=
  match h : findIter pat text 0 with
  | [] => none
  | m :: ms =>
    some ((((m :: ms).reverse.find? fun r => decide (2000 < text.length - r.2)).getD
      ((m :: ms).getLast (by simp))))

/-- Python `str.strip()` whitespace predicate (ASCII fragment). -/
def pyIsSpace (c : Char) : Bool :=
  c = ' ' || c = '\t' || c = '\n' || c = '\r' || c = '\x0b' || c = '\x0c'

/-- Python `str.strip()`. -/
def pyStrip (l : List Char) : List Char :=
  ((l.dropWhile pyIsSpace).reverse.dropWhile pyIsSpace).reverse

/-- Python `text[a:b]` for `0 ≤ a, b` (`Nat` indices): clamps, and yields `[]`
when `b ≤ a`. -/
def pySlice (text : List Char) (a b : Nat) : List Char :=
  (text.take b).drop a

/-- The end-position loop of `src/parser.py:_extract_between`
(`for ep in end_pats: em = ep.search(text, start); if em and em.start() < end:
end = em.start()`), with accumulator `e0` (the source starts it at
`len(text)`). -/
def endPosFrom (text : List Char) (start : Nat) (endPats : List (List Char))
    (e0 : Nat) : Nat :=
  endPats.foldl
    (fun e ep =>
      match searchFrom ep text start with
      | some em => if em.1 < e then em.1 else e
      | none => e)
    e0

/-- `src/parser.py:_extract_between`: locate the best start-marker match, then
cut at the nearest end-marker occurrence after it (end of text when none),
strip, and turn the empty result into `None` (`... .strip() or None`). -/
def extractBetween (text startPat : List Char) (endPats : List (List Char)) :
    Option (List Char) :=
  match bestMatch text startPat with
  | none => none
  | some m =>
    let start := m.2
    let e := endPosFrom text start endPats text.length
    let s := pyStrip (pySlice text start e)
    if s = [] then none else some s

/-- The truncation marker of `src/parser.py:_smart_truncate`. -/
def truncMarker : List Char := "\n\n[...TRUNCATED...]\n\n".data

/-- Python `text[:b]` with a possibly negative `b`. -/
def pySliceTo (text : List Char) (b : Int) : List Char :=
  if b < 0 then text.take (text.length - min text.length b.natAbs)
  else text.take b.toNat

/-- Python `text[a:]` with a possibly negative `a`. -/
def pySliceFrom (text : List Char) (a : Int) : List Char :=
  if a < 0 then text.drop (text.length - min text.length a.natAbs)
  else text.drop a.toNat

/-- `src/parser.py:_smart_truncate`.  `front = int(budget * 0.70)` is modelled
as exact truncated division `(7 * budget).tdiv 10`; like Python's `int()` on a
float this truncates toward zero (the at-most-one-ulp float discrepancy does
not affect any property below, which depend only on `front + rear = budget`
and the sign/bound behaviour of `front`). -/
def smartTruncate (text : List Char) (maxChars : Nat) : List Char :=
  if text.length ≤ maxChars then text
  else
    let budget : Int := (maxChars : Int) - truncMarker.length
    let front : Int := (7 * budget).tdiv 10
    let rear : Int := budget - front
    pySliceTo text front ++ truncMarker ++ pySliceFrom text (-rear)

/-- The number of positions at which `pat` occurs (as a contiguous substring)
in `l`. -/
def numOccs (pat l : List Char) : Nat :=
  ((List.range (l.length + 1)).filter fun i => matchesAt pat l i).length

/-- The fixed 10-term AI vocabulary `src/parser.py:_AI_TERMS`. -/
def aiTerms : List (List Char) :=
  ["artificial intelligence".data, "machine learning".data, "generative ai".data,
   "large language model".data, "llm".data, "neural network".data, "gpu cluster".data,
   "ai infrastructure".data, "foundation model".data, "deep learning".data]

/-- Python `t in combined` (substring containment). -/
def containsSub (text pat : List Char) : Bool :=
  (List.range (text.length + 1)).any fun i => matchesAt pat text i

/-- Python `str.lower()` (ASCII fragment, matching `Char.toLower`). -/
def pyLower (l : List Char) : List Char := l.map Char.toLower

/-- `src/parser.py:has_ai_exposure`: count the vocabulary terms occurring in
the lowercased concatenation of the two sections and compare with the
threshold (default 3). -/
def hasAiExposure (mda risk : List Char) (threshold : Nat := 3) : Bool :=
  let combined := pyLower (mda ++ risk)
  threshold ≤ (aiTerms.countP fun t => containsSub combined t)

/-! ## Storage (`src/storage.py`) -/

/-- One row of the `processing_log` table (minus the timestamp), primary key
`(ticker, fiscal_year)`. -/
structure LogRow where
  status   : String
  errorMsg : Option String
  attempts : Nat
deriving DecidableEq, Repr

/-- The `processing_log` table as an association list keyed by its primary key
`(ticker, fiscal_year)`; the SQL primary key keeps the keys unique. -/
abbrev ProcLog := List ((String × Int) × LogRow)

/-- `Storage.log_status`: `INSERT ... VALUES (..., 1) ON CONFLICT(ticker,
fiscal_year) DO UPDATE SET status, error_message, attempts = attempts + 1`. -/
def logStatus (log : ProcLog) (ticker : String) (year : Int) (status : String)
    (errorMsg : Option String) : ProcLog :=
  if log.any fun r => r.1 = (ticker, year) then
    log.map fun r =>
      if r.1 = (ticker, year) then
        (r.1, { status := status, errorMsg := errorMsg, attempts := r.2.attempts + 1 })
      else r
  else
    log ++ [((ticker, year), { status := status, errorMsg := errorMsg, attempts := 1 })]

/-- `Storage.get_done_set`: `SELECT ticker, fiscal_year FROM processing_log
WHERE status = 'extracted'`. -/
def getDoneSet (log : ProcLog) : List (String × Int) :=
  (log.filter fun r => r.2.status = "extracted").map (·.1)

/-- One row of the `filing_insights` table (minus `id`/`processed_at`),
unique on `(ticker, fiscal_year)`. -/
structure InsightRow where
  ticker : String
  tier : String
  fiscalYear : Int
  filingType : String
  aiInvestmentFocus : Option String
  aiMonetizationStatus : Option String
  capexGuidanceTone : Option String
  chinaExposureRisk : Option String
  supplyChainBottlenecks : Option String
  restructuringPlans : Option String
  efficiencyInitiatives : Option String
  mdaSentimentScore : Option Int
  macroConcerns : Option String
  growingSegments : Option String
  shrinkingSegments : Option String
  mdaCharCount : Int
  riskCharCount : Int
  extractionModel : String
deriving DecidableEq, Repr

/-- `Storage.upsert_insight`: `INSERT ... ON CONFLICT(ticker, fiscal_year) DO
UPDATE SET ...`.  The SQL `DO UPDATE SET` list names `filing_type`, the eleven
content fields, the two char counts and `extraction_model` (and the timestamp)
— it does not name `tier`, so on conflict the existing row keeps its `tier`. -/
def upsertInsight (tbl : List InsightRow) (new : InsightRow) : List InsightRow :=
  if tbl.any fun r => r.ticker = new.ticker ∧ r.fiscalYear = new.fiscalYear then
    tbl.map fun r =>
      if r.ticker = new.ticker ∧ r.fiscalYear = new.fiscalYear then
        { r with
          filingType := new.filingType,
          aiInvestmentFocus := new.aiInvestmentFocus,
          aiMonetizationStatus := new.aiMonetizationStatus,
          capexGuidanceTone := new.capexGuidanceTone,
          chinaExposureRisk := new.chinaExposureRisk,
          supplyChainBottlenecks := new.supplyChainBottlenecks,
          restructuringPlans := new.restructuringPlans,
          efficiencyInitiatives := new.efficiencyInitiatives,
          mdaSentimentScore := new.mdaSentimentScore,
          macroConcerns := new.macroConcerns,
          growingSegments := new.growingSegments,
          shrinkingSegments := new.shrinkingSegments,
          mdaCharCount := new.mdaCharCount,
          riskCharCount := new.riskCharCount,
          extractionModel := new.extractionModel }
      else r
  else
    tbl ++ [new]

/-! ## Extraction client (`src/api_client.py`) -/

/-- JSON-ish values as returned by `json.loads` on the service response
(floating-point numbers elided: the pipeline's schema uses integers). -/
inductive JVal where
  | null
  | str (s : String)
  | int (n : Int)
  | bool (b : Bool)
  | arr (elems : List JVal)

/-- A parsed JSON object (Python dict) as an association list. -/
abbrev RawData := List (String × JVal)

/-- Python `data.get(k)` (first binding wins). -/
def getField (d : RawData) (k : String) : Option JVal :=
  (d.find? fun kv => kv.1 == k).map (·.2)

/-- Python `int(s)` on a string: strip whitespace, parse a signed decimal
integer, `ValueError` otherwise. -/
def pyIntOfStr (s : String) : Except String Int :=
  match s.trim.toInt? with
  | some n => .ok n
  | none => .error "ValueError: invalid literal for int"

/-- Python `int(v)` on an already-coerced JSON value: ints and bools succeed,
everything else is a `TypeError`. -/
def pyIntOfJVal : JVal → Except String Int
  | .int n => .ok n
  | .bool b => .ok (if b then 1 else 0)
  | .str s => pyIntOfStr s
  | _ => .error "TypeError: int() argument"

/-- Python `str.upper()` (ASCII fragment). -/
def pyUpper (s : String) : String := ⟨s.data.map Char.toUpper⟩

/-- Membership in `_CAPEX_VALUES = {"aggressive", "conservative",
"reducing"}` (Python `v in _CAPEX_VALUES` for a hashable `v`: only equal
strings are members). -/
def isCapexValue : JVal → Bool
  | .str s => s == "aggressive" || s == "conservative" || s == "reducing"
  | _ => false

/-- The `required` field list of `src/api_client.py:_validate`. -/
def requiredFields : List String :=
  ["ai_investment_focus", "ai_monetization_status", "capex_guidance_tone",
   "china_exposure_risk", "supply_chain_bottlenecks", "restructuring_plans",
   "efficiency_initiatives", "mda_sentiment_score", "macro_concerns",
   "growing_segments", "shrinking_segments"]

/-- The validated record produced by `_validate` (and by
`_build_null_skeleton`): the schema of the insight dict. -/
structure InsightData where
  ticker : String
  year : Int
  filingType : String
  aiInvestmentFocus : JVal
  aiMonetizationStatus : JVal
  capexGuidanceTone : JVal
  chinaExposureRisk : JVal
  supplyChainBottlenecks : JVal
  restructuringPlans : JVal
  efficiencyInitiatives : JVal
  mdaSentimentScore : Int
  macroConcerns : List JVal
  growingSegments : JVal
  shrinkingSegments : JVal

/-- `src/api_client.py:_build_null_skeleton`. -/
def buildNullSkeleton (ticker : String) (year : Int) (formType : String) : InsightData :=
  { ticker := pyUpper ticker, year := year, filingType := formType,
    aiInvestmentFocus := .null, aiMonetizationStatus := .null,
    capexGuidanceTone := .str "conservative",
    chinaExposureRisk := .null, supplyChainBottlenecks := .null,
    restructuringPlans := .null, efficiencyInitiatives := .null,
    mdaSentimentScore := 5, macroConcerns := [.null, .null, .null],
    growingSegments := .null, shrinkingSegments := .null }

/-- `_validate`, step 2: `if isinstance(data.get("year"), str): data["year"] =
int(data["year"])` — only the possible `ValueError` matters (the value is
later overwritten by the call's own `year`). -/
def coerceYear (data : RawData) : Except String Unit :=
  match getField data "year" with
  | some (.str s) => (pyIntOfStr s).map fun _ => ()
  | _ => .ok ()

/-- `_validate`, step 3: string→int coercion of `mda_sentiment_score`
(`ValueError` on a bad literal, other values pass through untouched). -/
def coerceScoreStr (data : RawData) : Except String JVal :=
  match getField data "mda_sentiment_score" with
  | some (.str s) => (pyIntOfStr s).map .int
  | some v => .ok v
  | none => .ok .null

/-- `_validate`, step 4: `if data.get("capex_guidance_tone") not in
_CAPEX_VALUES: data["capex_guidance_tone"] = "conservative"` — membership in a
Python `set` raises `TypeError` on an unhashable candidate (a JSON array). -/
def checkCapex (data : RawData) : Except String JVal :=
  match (getField data "capex_guidance_tone").getD .null with
  | .arr _ => .error "TypeError: unhashable type in set membership"
  | v => .ok (if isCapexValue v then v else .str "conservative")

/-- `_validate`, step 6: force `macro_concerns` to exactly 3 entries —
non-lists become `[None, None, None]`, short lists are padded with `None`,
long lists are truncated (`(mc + [None, None, None])[:3]` / `mc[:3]`). -/
def forceConcerns (data : RawData) : List JVal :=
  match getField data "macro_concerns" with
  | some (.arr l) =>
    if l.length < 3 then (l ++ [JVal.null, JVal.null, JVal.null]).take 3
    else l.take 3
  | _ => [JVal.null, JVal.null, JVal.null]

/-- `src/api_client.py:_validate`.  Mirrors the source order: required-field
check (`ValueError`), string→int coercion of `year` and `mda_sentiment_score`,
out-of-enum `capex_guidance_tone` replaced by `"conservative"`, sentiment
score clamped by `max(1, min(10, int(score)))` (`int()` raising `TypeError`
on non-numeric values), `macro_concerns` forced to exactly 3 entries, and
ticker/year/filing_type stamped from the call's own inputs. -/
def validate (data : RawData) (ticker : String) (year : Int) (formType : String) :
    Except String InsightData :=
  if (requiredFields.filter fun f => (getField data f).isNone) ≠ [] then
    .error "ValueError: Missing fields"
  else
    match coerceYear data with
    | .error e => .error e
    | .ok _ =>
      match coerceScoreStr data with
      | .error e => .error e
      | .ok scoreJ =>
        match checkCapex data with
        | .error e => .error e
        | .ok capex =>
          match pyIntOfJVal scoreJ with
          | .error e => .error e
          | .ok n =>
            .ok { ticker := pyUpper ticker, year := year, filingType := formType,
                  aiInvestmentFocus := (getField data "ai_investment_focus").getD .null,
                  aiMonetizationStatus := (getField data "ai_monetization_status").getD .null,
                  capexGuidanceTone := capex,
                  chinaExposureRisk := (getField data "china_exposure_risk").getD .null,
                  supplyChainBottlenecks := (getField data "supply_chain_bottlenecks").getD .null,
                  restructuringPlans := (getField data "restructuring_plans").getD .null,
                  efficiencyInitiatives := (getField data "efficiency_initiatives").getD .null,
                  mdaSentimentScore := max 1 (min 10 n),
                  macroConcerns := forceConcerns data,
                  growingSegments := (getField data "growing_segments").getD .null,
                  shrinkingSegments := (getField data "shrinking_segments").getD .null }

/-- `_MAX_RETRIES = 4`. -/
def MAX_RETRIES : Nat := 4

/-- The behaviour of the remote service as observed through one attempt of
`GeminiClient.extract`: for each attempt index, either an exception (transport
error, rate limit, or a `_parse_response` failure) or the parsed JSON object. -/
abbrev Behaviour := Nat → Except String RawData

/-- The retry loop of `GeminiClient.extract` from attempt `k`: every
exception inside an attempt (service error, parse error, validation error) is
caught and consumes the attempt; after `_MAX_RETRIES` attempts the null
skeleton is returned.  The section texts and AI flag shape the prompt only, so
they influence the result solely through `b`. -/
def extractGo (b : Behaviour) (ticker : String) (year : Int) (formType : String)
    (k : Nat) : InsightData :=
  if k < MAX_RETRIES then
    match b k with
    | .error _ => extractGo b ticker year formType (k + 1)
    | .ok data =>
      match validate data ticker year formType with
      | .ok r => r
      | .error _ => extractGo b ticker year formType (k + 1)
  else buildNullSkeleton ticker year formType
  termination_by MAX_RETRIES - k

/-- `GeminiClient.extract`. -/
def extract (b : Behaviour) (ticker : String) (year : Int)
    (mda risk : Option (List Char)) (aiFlag : Bool) (formType : String) : InsightData :=
  let _ := (mda, risk, aiFlag)
  extractGo b ticker year formType 0

/-! ## Orchestrator (`src/orchestrator.py`) and downloader gate -/

/-- The configuration slice the coordinator reads: `config.YEARS` and
`config.COMPANIES` (tier name → tickers, insertion order). -/
structure Config where
  years : List Int
  companies : List (String × List String)

/-- `src/orchestrator.py:run`, lines 17–23: the work list is every
`(ticker, tier, year)` from the configured years × companies, in order
(year, then tier, then ticker), skipping pairs in the done set. -/
def buildWorkItems (cfg : Config) (done : List (String × Int)) :
    List (String × String × Int) :=
  cfg.years.flatMap fun year =>
    cfg.companies.flatMap fun tc =>
      (tc.2.filter fun t => decide ((t, year) ∉ done)).map fun t => (t, tc.1, year)

/-- `src/downloader.py:download_filing`, lines 142–145: the IPO-floor gate
`if floor and year < floor: return None` (a floor of `0` is falsy in Python).
`rest` abstracts the remainder of the function (cache, CIK lookup, network). -/
def downloadFiling (ipoFloor : Option Int) (year : Int) (rest : Option String) :
    Option String :=
  match ipoFloor with
  | some f => if f ≠ 0 ∧ year < f then none else rest
  | none => rest

/-- `json.dumps` (string escaping elided: the claims below never inspect the
dumped text). -/
def jsonDump : JVal → String
  | .null => "null"
  | .str s => "\"" ++ s ++ "\""
  | .int n => toString n
  | .bool b => if b then "true" else "false"
  | .arr l => "[" ++ String.intercalate ", " (l.attach.map fun e => jsonDump e.1) ++ "]"
  decreasing_by
    have := List.sizeOf_lt_of_mem e.2
    simp only [JVal.arr.sizeOf_spec]
    omega

/-- `src/storage.py:_to_str`: `None` passes through, lists/dicts are JSON
dumped, everything else goes through `str()`. -/
def toOptStr : JVal → Option String
  | .null => none
  | .str s => some s
  | .int n => some (toString n)
  | .bool b => some (if b then "True" else "False")
  | .arr l => some (jsonDump (.arr l))

/-- The `filing_insights` row built by `Storage.upsert_insight` from an
insight dict: ticker/tier/year come from the call's arguments, the content
fields through `_to_str`. -/
def insightRowOf (ticker tier : String) (year : Int) (d : InsightData)
    (mdaChars riskChars : Int) (modelName : String) : InsightRow :=
  { ticker := ticker, tier := tier, fiscalYear := year,
    filingType := d.filingType,
    aiInvestmentFocus := toOptStr d.aiInvestmentFocus,
    aiMonetizationStatus := toOptStr d.aiMonetizationStatus,
    capexGuidanceTone := toOptStr d.capexGuidanceTone,
    chinaExposureRisk := toOptStr d.chinaExposureRisk,
    supplyChainBottlenecks := toOptStr d.supplyChainBottlenecks,
    restructuringPlans := toOptStr d.restructuringPlans,
    efficiencyInitiatives := toOptStr d.efficiencyInitiatives,
    mdaSentimentScore := some d.mdaSentimentScore,
    macroConcerns := toOptStr (.arr d.macroConcerns),
    growingSegments := toOptStr d.growingSegments,
    shrinkingSegments := toOptStr d.shrinkingSegments,
    mdaCharCount := mdaChars, riskCharCount := riskChars,
    extractionModel := modelName }

/-- The durable state touched by the workers: the two tables and the
append-only JSONL audit log. -/
structure StoreState where
  procLog : ProcLog
  insights : List InsightRow
  jsonl : List InsightData

/-- The fetch/parse outcome for one work unit, as observed inside
`download_worker`'s `try` block: no filing found, an exception, or parsed
sections. -/
inductive FetchOutcome where
  | noFiling
  | exn (msg : String)
  | sections (mda risk : Option (List Char)) (mdaChars riskChars : Int)

/-- The `api_worker` body for one dequeued unit (`src/orchestrator.py`,
lines 65–96): compute the AI flag and form type, call `extract` (total),
upsert the insight row, append to the JSONL log, and record status
`"extracted"`.  Nothing in the `try` block raises in this model (persistence
failures are fatal and out of scope, per the spec's §7). -/
def apiWorkerStep (foreignFilers : List String) (b : Behaviour) (modelName : String)
    (st : StoreState) (ticker tier : String) (year : Int)
    (mda risk : Option (List Char)) (mdaChars riskChars : Int) : StoreState :=
  let aiFlag := hasAiExposure (mda.getD []) (risk.getD []) 3
  let formType := if foreignFilers.contains ticker then "20-F" else "10-K"
  let insights := extract b ticker year mda risk aiFlag formType
  let st1 := { st with
    insights :=
      upsertInsight st.insights (insightRowOf ticker tier year insights mdaChars riskChars modelName) }
  let st2 := { st1 with jsonl := st1.jsonl ++ [insights] }
  { st2 with procLog := logStatus st2.procLog ticker year "extracted" none }

/-- One work unit's end-to-end path through the run (sequential abstraction:
the unit's two stage steps are totally ordered, `download_worker` then, when a
payload was enqueued, `api_worker`). -/
def processUnit (foreignFilers : List String) (b : Behaviour) (modelName : String)
    (st : StoreState) (ticker tier : String) (year : Int) (out : FetchOutcome) :
    StoreState :=
  match out with
  | .noFiling => { st with procLog := logStatus st.procLog ticker year "no_filing" none }
  | .exn e => { st with procLog := logStatus st.procLog ticker year "failed" (some e) }
  | .sections mda risk mdaChars riskChars =>
    let st1 := { st with procLog := logStatus st.procLog ticker year "parsed" none }
    apiWorkerStep foreignFilers b modelName st1 ticker tier year mda risk mdaChars riskChars

/-! ## Hand-off queue shutdown protocol (`src/orchestrator.py`, lines 98–111) -/

/-- A message on the bounded hand-off queue `api_q`: a work payload or the
`None` stage-end sentinel. -/
inductive Msg (α : Type) where
  | item (payload : α)
  | sentinel

/-- The sequence of messages the coordinator enqueues into `api_q` over a
run: `dlPuts` are the payloads the fetch/parse workers put (in queue order);
whether `asyncio.gather(*dl_tasks)` returns normally (`dlExn = none`) or
raises (`dlExn = some e`), the `finally` block appends exactly one sentinel
per analysis worker.  The `match` mirrors the two control paths around
`try ... finally`. -/
def coordinatorEnqueues {α : Type} (dlPuts : List α) (dlExn : Option String)
    (numWorkers : Nat) : List (Msg α) :=
  match dlExn with
  | none => dlPuts.map Msg.item ++ List.replicate numWorkers Msg.sentinel
  | some _ => dlPuts.map Msg.item ++ List.replicate numWorkers Msg.sentinel

/-- Abstract state of the analysis stage: the messages still pending on the
queue (FIFO) and the number of workers still in their consume loop. -/
structure QState (α : Type) where
  pending : List (Msg α)
  running : Nat

/-- One scheduler step: some still-running worker dequeues the head message.
A payload is processed and the worker loops; a sentinel makes the worker break
out of its loop (`if item is None: break`). -/
inductive QStep {α : Type} : QState α → QState α → Prop
  | item (p : α) (rest : List (Msg α)) (w : Nat) (hw : 0 < w) :
      QStep ⟨Msg.item p :: rest, w⟩ ⟨rest, w⟩
  | sentinel (rest : List (Msg α)) (w : Nat) (hw : 0 < w) :
      QStep ⟨Msg.sentinel :: rest, w⟩ ⟨rest, w - 1⟩

/-- Reachability under the queue-step relation. -/
def QReach {α : Type} : QState α → QState α → Prop :=
  Relation.ReflTransGen QStep

/-- Recognizer for the stage-end sentinel. -/
def isSentinel {α : Type} : Msg α → Bool
  | .sentinel => true
  | .item _ => false

/-- Invariant of the analysis stage: the pending messages are some payloads
followed by exactly one sentinel per still-running worker, and payloads can
only remain while workers do. -/
def QInv {α : Type} (s : QState α) : Prop :=
  ∃ its : List α,
    s.pending = its.map Msg.item ++ List.replicate s.running Msg.sentinel ∧
    (its ≠ [] → 0 < s.running)

/-- A sample raw service response: schema-complete, with an out-of-range
sentiment score, a length-1 concern list and an out-of-enum tone. -/
def sampleRaw : RawData :=
  [("ai_investment_focus", JVal.null), ("ai_monetization_status", JVal.null),
   ("capex_guidance_tone", JVal.str "wild"), ("china_exposure_risk", JVal.null),
   ("supply_chain_bottlenecks", JVal.null), ("restructuring_plans", JVal.null),
   ("efficiency_initiatives", JVal.null), ("mda_sentiment_score", JVal.int 99),
   ("macro_concerns", JVal.arr [JVal.str "inflation"]),
   ("growing_segments", JVal.null), ("shrinking_segments", JVal.null)]

/-- What `_validate` produces on `sampleRaw` for ("nvda", 2024, "10-K"). -/
def sampleValidated : InsightData :=
  { ticker := "NVDA", year := 2024, filingType := "10-K",
    aiInvestmentFocus := .null, aiMonetizationStatus := .null,
    capexGuidanceTone := .str "conservative",
    chinaExposureRisk := .null, supplyChainBottlenecks := .null,
    restructuringPlans := .null, efficiencyInitiatives := .null,
    mdaSentimentScore := 10,
    macroConcerns := [.str "inflation", .null, .null],
    growingSegments := .null, shrinkingSegments := .null }

/-! ## Helper lemmas -/

theorem containsSub_iff (text pat : List Char) :
    containsSub text pat = true ↔ ∃ pre post, text = pre ++ pat ++ post := by
  unfold containsSub matchesAt
  rw [List.any_eq_true]
  constructor
  · rintro ⟨i, -, hp⟩
    rcases List.isPrefixOf_iff_prefix.mp hp with ⟨post, hpost⟩
    exact ⟨text.take i, post, by
      conv_lhs => rw [← List.take_append_drop i text]
      rw [← hpost, List.append_assoc]⟩
  · rintro ⟨pre, post, rfl⟩
    refine ⟨pre.length, List.mem_range.mpr ?_, ?_⟩
    · simp only [List.length_append]
      omega
    · rw [List.append_assoc, List.drop_left]
      exact List.isPrefixOf_iff_prefix.mpr ⟨post, rfl⟩

theorem mem_buildWorkItems (cfg : Config) (done : List (String × Int))
    (t tier : String) (y : Int) :
    (t, tier, y) ∈ buildWorkItems cfg done ↔
      y ∈ cfg.years ∧ ∃ ts, (tier, ts) ∈ cfg.companies ∧ t ∈ ts ∧ (t, y) ∉ done := by
  unfold buildWorkItems
  simp only [List.mem_flatMap, List.mem_map, List.mem_filter, decide_eq_true_eq]
  constructor
  · rintro ⟨year, hy, tc, htc, t', ⟨ht', hnd⟩, heq⟩
    obtain ⟨rfl, rfl, rfl⟩ := Prod.mk.injEq .. ▸ heq
    exact ⟨hy, tc.2, by simpa using htc, ht', hnd⟩
  · rintro ⟨hy, ts, hts, ht, hnd⟩
    exact ⟨y, hy, (tier, ts), hts, t, ⟨ht, hnd⟩, rfl⟩

/-! ## Claim theorems -/

/-- C10: for every pair of section texts, the AI-topic flag at the default
threshold 3 is true iff at least 3 of the fixed 10 distinct vocabulary terms
occur as substrings of the lowercased concatenation of the two texts (the
flag is a pure function of the two texts, so it is deterministic in them). -/
theorem hasAiExposure_default_iff :
    aiTerms.length = 10 ∧ aiTerms.Nodup ∧
    ∀ mda risk : List Char,
      (hasAiExposure mda risk 3 = true ↔
        3 ≤ (aiTerms.filter fun t => containsSub (pyLower (mda ++ risk)) t).length) ∧
      ∀ t ∈ aiTerms, (containsSub (pyLower (mda ++ risk)) t = true ↔
        ∃ pre post, pyLower (mda ++ risk) = pre ++ t ++ post) := by
  refine ⟨by decide, by decide, fun mda risk => ⟨?_, fun t _ => containsSub_iff _ t⟩⟩
  unfold hasAiExposure
  rw [decide_eq_true_iff, List.countP_eq_length_filter]

/-- Witness for `hasAiExposure_default_iff` at concrete section texts. -/
theorem hasAiExposure_default_iff_witness :
    hasAiExposure "We invest in Machine Learning on a GPU cluster".data
      " Generative AI risk".data 3 = true ∧
    3 ≤ (aiTerms.filter fun t =>
      containsSub (pyLower ("We invest in Machine Learning on a GPU cluster".data ++
        " Generative AI risk".data)) t).length :=
  ⟨by decide,
   (hasAiExposure_default_iff.2.2 _ _).1.mp (by decide)⟩

/-- C1: the done-set is exactly the keys whose recorded status is
`"extracted"` (a pair whose status is anything else — `no_filing`, `failed`,
`parsed` — is not in it, so such units are re-attempted), and the coordinator
enumerates exactly the configured (ticker, tier, year) combinations whose
(ticker, year) is not in the done-set. -/
theorem doneSet_resume_spec (log : ProcLog) (cfg : Config)
    (hkeys : (log.map (·.1)).Nodup) :
    (∀ t y, (t, y) ∈ getDoneSet log ↔
        ∃ row, ((t, y), row) ∈ log ∧ row.status = "extracted") ∧
    (∀ t y row, ((t, y), row) ∈ log → row.status ≠ "extracted" →
        (t, y) ∉ getDoneSet log) ∧
    (∀ t tier y, (t, tier, y) ∈ buildWorkItems cfg (getDoneSet log) ↔
        y ∈ cfg.years ∧ ∃ ts, (tier, ts) ∈ cfg.companies ∧ t ∈ ts ∧
          (t, y) ∉ getDoneSet log) := by
  have hmem : ∀ t y, (t, y) ∈ getDoneSet log ↔
      ∃ row, ((t, y), row) ∈ log ∧ row.status = "extracted" := by
    intro t y
    unfold getDoneSet
    simp only [List.mem_map, List.mem_filter, decide_eq_true_eq]
    constructor
    · rintro ⟨⟨k, row⟩, ⟨hk, hs⟩, rfl⟩
      exact ⟨row, hk, hs⟩
    · rintro ⟨row, hk, hs⟩
      exact ⟨((t, y), row), ⟨hk, hs⟩, rfl⟩
  refine ⟨hmem, ?_, fun t tier y => mem_buildWorkItems cfg (getDoneSet log) t tier y⟩
  intro t y row hrow hne hdone
  rcases (hmem t y).mp hdone with ⟨row', hrow', hs'⟩
  have := List.inj_on_of_nodup_map hkeys hrow hrow' rfl
  cases this
  exact hne hs'

/-- Witness for `doneSet_resume_spec`: with a log holding an `extracted`
"A"/2020 and a `failed` "B"/2020, the coordinator enumerates "B" but not
"A" for 2020. -/
theorem doneSet_resume_spec_witness :
    ("B", "t1", (2020 : Int)) ∈
      buildWorkItems ⟨[2020], [("t1", ["A", "B"])]⟩
        (getDoneSet [(("A", 2020), ⟨"extracted", none, 1⟩),
                     (("B", 2020), ⟨"failed", some "boom", 2⟩)]) :=
  ((doneSet_resume_spec
      [(("A", 2020), ⟨"extracted", none, 1⟩), (("B", 2020), ⟨"failed", some "boom", 2⟩)]
      ⟨[2020], [("t1", ["A", "B"])]⟩ (by decide)).2.2 "B" "t1" 2020).mpr
    ⟨by decide, ["A", "B"], by decide, by decide, by decide⟩

/-- C9 counterexample: with a ticker "NEWCO" whose configured IPO-year floor
is 2021 and a configured year 2019, the pre-floor unit ("NEWCO", 2019) *is*
enumerated by the coordinator — the work-list construction of
`src/orchestrator.py:run` never consults `IPO_YEAR_FLOOR`. -/
theorem ipoFloor_enumeration_counterexample :
    ([("NEWCO", (2021 : Int))].lookup "NEWCO" = some 2021) ∧ ((2019 : Int) < 2021) ∧
    ("NEWCO", "tier1", (2019 : Int)) ∈
      buildWorkItems ⟨[2019], [("tier1", ["NEWCO"])]⟩ [] := by
  refine ⟨rfl, by decide, ?_⟩
  decide

/-- C9 amended: pre-floor units are enumerated into the work set exactly like
any other configured unit (the work list is independent of the floor map), but
`download_filing` returns `None` for them before any network access, so they
are never downloaded or processed further (they end the run as `no_filing`). -/
theorem ipoFloor_gate_spec (f year : Int) (rest : Option String)
    (cfg : Config) (done : List (String × Int)) (t tier : String)
    (hf : f ≠ 0) (hy : year < f) :
    downloadFiling (some f) year rest = none ∧
    ((t, tier, year) ∈ buildWorkItems cfg done ↔
      year ∈ cfg.years ∧ ∃ ts, (tier, ts) ∈ cfg.companies ∧ t ∈ ts ∧
        (t, year) ∉ done) := by
  refine ⟨?_, mem_buildWorkItems cfg done t tier year⟩
  simp [downloadFiling, hf, hy]

/-- Witness for `ipoFloor_gate_spec` at floor 2021, year 2019. -/
theorem ipoFloor_gate_spec_witness :
    downloadFiling (some 2021) 2019 (some "data/filings/NEWCO/2019/filing.htm") = none :=
  (ipoFloor_gate_spec 2021 2019 (some "data/filings/NEWCO/2019/filing.htm")
    ⟨[2019], [("tier1", ["NEWCO"])]⟩ [] "NEWCO" "tier1"
    (by decide) (by decide)).1

theorem checkCapex_ok (data : RawData) (capex : JVal)
    (h : checkCapex data = .ok capex) :
    isCapexValue capex = true ∧
    ∀ v, getField data "capex_guidance_tone" = some v → isCapexValue v = false →
      capex = .str "conservative" := by
  unfold checkCapex at h
  split at h
  · simp at h
  · rw [Except.ok.injEq] at h
    subst h
    constructor
    · split
      · assumption
      · decide
    · intro w hw hnc
      rw [hw]
      simp [hnc]

theorem forceConcerns_spec (data : RawData) :
    (forceConcerns data).length = 3 ∧
    ∀ l, getField data "macro_concerns" = some (.arr l) →
      forceConcerns data =
        if l.length < 3 then (l ++ [JVal.null, JVal.null, JVal.null]).take 3
        else l.take 3 := by
  constructor
  · unfold forceConcerns
    split
    · split <;> (simp only [List.length_take, List.length_append, List.length_cons,
        List.length_nil]; omega)
    · rfl
  · intro l hl
    unfold forceConcerns
    rw [hl]

theorem coerceScoreStr_int (data : RawData) (n : Int)
    (hget : getField data "mda_sentiment_score" = some (.int n)) :
    coerceScoreStr data = .ok (.int n) := by
  unfold coerceScoreStr
  rw [hget]

/-- C5: every raw response accepted by validation has its sentiment score
clamped into the closed range [1,10] (for an integer raw score, equal to the
clamp `max 1 (min 10 ·)` of it), its macro-concern list forced to exactly 3
entries (non-lists become three nulls, short lists are padded with nulls,
long lists truncated), and its capex tone always inside the enum, an
out-of-enum raw tone being replaced by the fixed default "conservative". -/
theorem validate_clamps (data : RawData) (ticker : String) (year : Int)
    (formType : String) (r : InsightData)
    (h : validate data ticker year formType = .ok r) :
    (1 ≤ r.mdaSentimentScore ∧ r.mdaSentimentScore ≤ 10) ∧
    (∀ n : Int, getField data "mda_sentiment_score" = some (.int n) →
      r.mdaSentimentScore = max 1 (min 10 n)) ∧
    r.macroConcerns.length = 3 ∧
    (∀ l, getField data "macro_concerns" = some (.arr l) →
      r.macroConcerns =
        (if l.length < 3 then (l ++ [JVal.null, JVal.null, JVal.null]).take 3
         else l.take 3)) ∧
    isCapexValue r.capexGuidanceTone = true ∧
    (∀ v, getField data "capex_guidance_tone" = some v → isCapexValue v = false →
      r.capexGuidanceTone = .str "conservative") := by
  unfold validate at h
  split at h
  · simp at h
  split at h <;> try simp at h
  split at h <;> try simp at h
  split at h <;> try simp at h
  split at h <;> try simp at h
  rename coerceScoreStr data = Except.ok _ => hS
  rename checkCapex data = Except.ok _ => hC
  rename pyIntOfJVal _ = Except.ok _ => hN
  subst h
  refine ⟨⟨?_, ?_⟩, ?_, (forceConcerns_spec data).1, ?_,
    (checkCapex_ok data _ hC).1, (checkCapex_ok data _ hC).2⟩
  · dsimp only
    omega
  · dsimp only
    omega
  · intro n' hget
    have h2 := (coerceScoreStr_int data n' hget).symm.trans hS
    rw [Except.ok.injEq] at h2
    subst h2
    unfold pyIntOfJVal at hN
    rw [Except.ok.injEq] at hN
    subst hN
    rfl
  · exact (forceConcerns_spec data).2

/-- Witness for `validate_clamps` on `sampleRaw` (score 99, a 1-element
concern list, tone "wild"): accepted with score clamped to 10, exactly 3
concerns, and tone "conservative". -/
theorem validate_clamps_witness :
    (1 ≤ sampleValidated.mdaSentimentScore ∧ sampleValidated.mdaSentimentScore ≤ 10) ∧
    sampleValidated.macroConcerns.length = 3 ∧
    isCapexValue sampleValidated.capexGuidanceTone = true :=
  have h : validate sampleRaw "nvda" 2024 "10-K" = .ok sampleValidated := by rfl
  have hm := validate_clamps sampleRaw "nvda" 2024 "10-K" sampleValidated h
  ⟨hm.1, hm.2.2.1, hm.2.2.2.2.1⟩

theorem extractGo_fail (b : Behaviour) (ticker : String) (year : Int)
    (formType : String)
    (hfail : ∀ j, j < MAX_RETRIES → ∀ data r, b j = .ok data →
      validate data ticker year formType ≠ .ok r) :
    ∀ m k, MAX_RETRIES ≤ k + m →
      extractGo b ticker year formType k = buildNullSkeleton ticker year formType := by
  intro m
  induction m with
  | zero =>
    intro k hk
    rw [extractGo]
    simp only [Nat.add_zero] at hk
    rw [if_neg (by omega)]
  | succ m ih =>
    intro k hk
    rw [extractGo]
    split
    · rename_i hlt
      split
      · exact ih (k + 1) (by omega)
      · split
        · rename b k = Except.ok _ => hdata
          rename validate _ _ _ _ = Except.ok _ => hr
          exact absurd hr (hfail k hlt _ _ hdata)
        · exact ih (k + 1) (by omega)
    · rfl

theorem extractGo_total (b : Behaviour) (ticker : String) (year : Int)
    (formType : String) :
    ∀ m k, MAX_RETRIES ≤ k + m →
      extractGo b ticker year formType k = buildNullSkeleton ticker year formType ∨
      ∃ j, k ≤ j ∧ j < MAX_RETRIES ∧ ∃ data r, b j = .ok data ∧
        validate data ticker year formType = .ok r ∧
        extractGo b ticker year formType k = r := by
  intro m
  induction m with
  | zero =>
    intro k hk
    left
    rw [extractGo]
    simp only [Nat.add_zero] at hk
    rw [if_neg (by omega)]
  | succ m ih =>
    intro k hk
    rw [extractGo]
    split
    · rename_i hlt
      split
      · rcases ih (k + 1) (by omega) with h | ⟨j, hj1, hj2, data, r, h1, h2, h3⟩
        · exact .inl h
        · exact .inr ⟨j, by omega, hj2, data, r, h1, h2, h3⟩
      · split
        · rename b k = Except.ok _ => hdata
          rename validate _ _ _ _ = Except.ok _ => hr
          exact .inr ⟨k, le_refl k, hlt, _, _, hdata, hr, rfl⟩
        · rcases ih (k + 1) (by omega) with h | ⟨j, hj1, hj2, data', r, h1, h2, h3⟩
          · exact .inl h
          · exact .inr ⟨j, by omega, hj2, data', r, h1, h2, h3⟩
    · exact .inl rfl

/-- C2: `extract` is a total function of the service behaviour — it either
returns some validated response from one of the at most 4 bounded attempts,
or, when every attempt fails (exception or rejected response), returns the
null-skeleton record: schema-complete, midpoint sentiment score 5, fixed
default tone "conservative", all other content fields null — it never
signals failure through the return channel. -/
theorem extract_total_fallback (b : Behaviour) (ticker : String) (year : Int)
    (mda risk : Option (List Char)) (aiFlag : Bool) (formType : String) :
    ((∀ k, k < MAX_RETRIES → ∀ data r, b k = .ok data →
        validate data ticker year formType ≠ .ok r) →
      extract b ticker year mda risk aiFlag formType =
        buildNullSkeleton ticker year formType) ∧
    (extract b ticker year mda risk aiFlag formType =
        buildNullSkeleton ticker year formType ∨
      ∃ k, k < MAX_RETRIES ∧ ∃ data r, b k = .ok data ∧
        validate data ticker year formType = .ok r ∧
        extract b ticker year mda risk aiFlag formType = r) ∧
    MAX_RETRIES = 4 ∧
    (buildNullSkeleton ticker year formType).mdaSentimentScore = 5 ∧
    (buildNullSkeleton ticker year formType).capexGuidanceTone = .str "conservative" ∧
    (buildNullSkeleton ticker year formType).aiInvestmentFocus = .null ∧
    (buildNullSkeleton ticker year formType).aiMonetizationStatus = .null ∧
    (buildNullSkeleton ticker year formType).chinaExposureRisk = .null ∧
    (buildNullSkeleton ticker year formType).supplyChainBottlenecks = .null ∧
    (buildNullSkeleton ticker year formType).restructuringPlans = .null ∧
    (buildNullSkeleton ticker year formType).efficiencyInitiatives = .null ∧
    (buildNullSkeleton ticker year formType).macroConcerns = [.null, .null, .null] ∧
    (buildNullSkeleton ticker year formType).growingSegments = .null ∧
    (buildNullSkeleton ticker year formType).shrinkingSegments = .null := by
  refine ⟨?_, ?_, rfl, rfl, rfl, rfl, rfl, rfl, rfl, rfl, rfl, rfl, rfl, rfl⟩
  · intro hfail
    exact extractGo_fail b ticker year formType (fun j hj => hfail j hj)
      MAX_RETRIES 0 (by omega)
  · rcases extractGo_total b ticker year formType MAX_RETRIES 0 (by omega) with
      h | ⟨j, _, hj2, data, r, h1, h2, h3⟩
    · exact .inl h
    · exact .inr ⟨j, hj2, data, r, h1, h2, h3⟩

/-- Witness for `extract_total_fallback`: a service that raises a rate-limit
error on every attempt yields the null skeleton, not an exception. -/
theorem extract_total_fallback_witness :
    extract (fun _ => .error "429 RESOURCE_EXHAUSTED: quota exceeded") "msft" 2022
      (some "mda text".data) none true "10-K" = buildNullSkeleton "msft" 2022 "10-K" :=
  (extract_total_fallback (fun _ => .error "429 RESOURCE_EXHAUSTED: quota exceeded")
    "msft" 2022 (some "mda text".data) none true "10-K").1
    (fun _ _ _ _ hok => nomatch hok)

/-- C7 counterexample: an upsert for an existing (ticker, fiscal_year) key
does not overwrite *all* fields of the prior record — `tier` is not in the
SQL `DO UPDATE SET` list, so the stored row keeps the original tier and the
table after the second upsert differs from the second record. -/
theorem upsertInsight_counterexample :
    upsertInsight
        [⟨"AAPL", "tier1", 2023, "10-K", none, none, some "conservative", none, none,
          none, none, some 5, some "[null, null, null]", none, none, 100, 50, "m1"⟩]
        ⟨"AAPL", "tier2", 2023, "10-K", some "focus", none, some "aggressive", none, none,
          none, none, some 7, some "[null, null, null]", none, none, 200, 80, "m2"⟩ ≠
      [⟨"AAPL", "tier2", 2023, "10-K", some "focus", none, some "aggressive", none, none,
        none, none, some 7, some "[null, null, null]", none, none, 200, 80, "m2"⟩] ∧
    (upsertInsight
        [⟨"AAPL", "tier1", 2023, "10-K", none, none, some "conservative", none, none,
          none, none, some 5, some "[null, null, null]", none, none, 100, 50, "m1"⟩]
        ⟨"AAPL", "tier2", 2023, "10-K", some "focus", none, some "aggressive", none, none,
          none, none, some 7, some "[null, null, null]", none, none, 200, 80, "m2"⟩).map
      (fun r => r.tier) = ["tier1"] := by
  constructor
  · decide
  · decide

/-- C7 amended: the insights table holds at most one row per
(ticker, fiscal_year): an upsert for an existing key updates that row in
place — overwriting every field except the key itself and the `tier` label,
which keeps its first-insert value — without changing the row count, and an
upsert for a new key appends exactly one row; so re-running the pipeline
over unchanged inputs produces no duplicate insight records. -/
theorem upsertInsight_spec (tbl : List InsightRow) (new : InsightRow)
    (hkeys : (tbl.map fun r => (r.ticker, r.fiscalYear)).Nodup) :
    ((upsertInsight tbl new).map fun r => (r.ticker, r.fiscalYear)).Nodup ∧
    (∀ old ∈ tbl, old.ticker = new.ticker → old.fiscalYear = new.fiscalYear →
      (upsertInsight tbl new).length = tbl.length ∧
      { new with ticker := old.ticker, tier := old.tier, fiscalYear := old.fiscalYear }
        ∈ upsertInsight tbl new) ∧
    ((∀ old ∈ tbl, ¬(old.ticker = new.ticker ∧ old.fiscalYear = new.fiscalYear)) →
      upsertInsight tbl new = tbl ++ [new]) := by
  unfold upsertInsight
  split
  · rename_i hany
    rw [List.any_eq_true] at hany
    refine ⟨?_, ?_, ?_⟩
    · have hmapkeys :
          (tbl.map fun r =>
            if r.ticker = new.ticker ∧ r.fiscalYear = new.fiscalYear then
              { r with
                filingType := new.filingType,
                aiInvestmentFocus := new.aiInvestmentFocus,
                aiMonetizationStatus := new.aiMonetizationStatus,
                capexGuidanceTone := new.capexGuidanceTone,
                chinaExposureRisk := new.chinaExposureRisk,
                supplyChainBottlenecks := new.supplyChainBottlenecks,
                restructuringPlans := new.restructuringPlans,
                efficiencyInitiatives := new.efficiencyInitiatives,
                mdaSentimentScore := new.mdaSentimentScore,
                macroConcerns := new.macroConcerns,
                growingSegments := new.growingSegments,
                shrinkingSegments := new.shrinkingSegments,
                mdaCharCount := new.mdaCharCount,
                riskCharCount := new.riskCharCount,
                extractionModel := new.extractionModel }
            else r).map (fun r => (r.ticker, r.fiscalYear)) =
          tbl.map fun r => (r.ticker, r.fiscalYear) := by
        rw [List.map_map]
        refine List.map_congr_left fun r _ => ?_
        dsimp only [Function.comp]
        split <;> rfl
      rw [hmapkeys]
      exact hkeys
    · intro old hold h1 h2
      refine ⟨List.length_map .., ?_⟩
      have hupd :
          (if old.ticker = new.ticker ∧ old.fiscalYear = new.fiscalYear then
            { old with
              filingType := new.filingType,
              aiInvestmentFocus := new.aiInvestmentFocus,
              aiMonetizationStatus := new.aiMonetizationStatus,
              capexGuidanceTone := new.capexGuidanceTone,
              chinaExposureRisk := new.chinaExposureRisk,
              supplyChainBottlenecks := new.supplyChainBottlenecks,
              restructuringPlans := new.restructuringPlans,
              efficiencyInitiatives := new.efficiencyInitiatives,
              mdaSentimentScore := new.mdaSentimentScore,
              macroConcerns := new.macroConcerns,
              growingSegments := new.growingSegments,
              shrinkingSegments := new.shrinkingSegments,
              mdaCharCount := new.mdaCharCount,
              riskCharCount := new.riskCharCount,
              extractionModel := new.extractionModel }
          else old) =
          { new with
            ticker := old.ticker, tier := old.tier,
            fiscalYear := old.fiscalYear } := by
        rw [if_pos ⟨h1, h2⟩]
      exact hupd ▸ List.mem_map_of_mem _ hold
    · intro hnone
      rcases hany with ⟨r, hr, hcond⟩
      rw [decide_eq_true_eq] at hcond
      exact absurd hcond (hnone r hr)
  · rename_i hany
    refine ⟨?_, ?_, fun _ => rfl⟩
    · rw [List.map_append, List.nodup_append]
      refine ⟨hkeys, List.nodup_singleton _, ?_⟩
      intro k hk hk2
      simp only [List.map_cons, List.map_nil, List.mem_singleton] at hk2
      subst hk2
      rcases List.mem_map.mp hk with ⟨r, hr, hkey⟩
      exact hany (List.any_eq_true.mpr ⟨r, hr, by
        rw [decide_eq_true_eq]
        exact ⟨congrArg Prod.fst hkey, congrArg Prod.snd hkey⟩⟩)
    · intro old hold h1 h2
      exact absurd (List.any_eq_true.mpr ⟨old, hold, by
        rw [decide_eq_true_eq]; exact ⟨h1, h2⟩⟩) hany

/-- Witness for `upsertInsight_spec`: two upserts for the same key starting
from the empty table leave exactly one row. -/
theorem upsertInsight_spec_witness :
    (upsertInsight
      (upsertInsight []
        ⟨"AAPL", "tier1", 2023, "10-K", none, none, some "conservative", none, none,
         none, none, some 5, none, none, none, 100, 50, "m1"⟩)
      ⟨"AAPL", "tier1", 2023, "10-K", some "focus", none, some "aggressive", none, none,
       none, none, some 7, none, none, none, 200, 80, "m2"⟩).length =
    (upsertInsight []
        ⟨"AAPL", "tier1", 2023, "10-K", none, none, some "conservative", none, none,
         none, none, some 5, none, none, none, 100, 50, "m1"⟩).length :=
  ((upsertInsight_spec
      (upsertInsight []
        ⟨"AAPL", "tier1", 2023, "10-K", none, none, some "conservative", none, none,
         none, none, some 5, none, none, none, 100, 50, "m1"⟩)
      ⟨"AAPL", "tier1", 2023, "10-K", some "focus", none, some "aggressive", none, none,
       none, none, some 7, none, none, none, 200, 80, "m2"⟩ (by decide)).2.1
    ⟨"AAPL", "tier1", 2023, "10-K", none, none, some "conservative", none, none,
     none, none, some 5, none, none, none, 100, 50, "m1"⟩ (by decide) rfl rfl).1

theorem logStatus_fresh (log : ProcLog) (t : String) (y : Int) (s : String)
    (e : Option String) (hfresh : ∀ p ∈ log, p.1 ≠ (t, y)) :
    logStatus log t y s e = log ++ [((t, y), ⟨s, e, 1⟩)] := by
  unfold logStatus
  rw [if_neg]
  rw [List.any_eq_true]
  rintro ⟨p, hp, hc⟩
  rw [decide_eq_true_eq] at hc
  exact hfresh p hp hc

theorem logStatus_update (log : ProcLog) (t : String) (y : Int) (row : LogRow)
    (s : String) (e : Option String) (hfresh : ∀ p ∈ log, p.1 ≠ (t, y)) :
    logStatus (log ++ [((t, y), row)]) t y s e =
      log ++ [((t, y), ⟨s, e, row.attempts + 1⟩)] := by
  unfold logStatus
  rw [if_pos (List.any_eq_true.mpr ⟨((t, y), row), by simp, by simp⟩)]
  rw [List.map_append]
  congr 1
  · have hid : (log.map fun r =>
        if r.1 = (t, y) then (r.1, ⟨s, e, r.2.attempts + 1⟩) else r) = log.map id :=
      List.map_congr_left fun p hp => by rw [if_neg (hfresh p hp)]; rfl
    rw [hid, List.map_id]
  · simp

theorem upsertInsight_fresh (tbl : List InsightRow) (new : InsightRow)
    (hfresh : ∀ r ∈ tbl, ¬(r.ticker = new.ticker ∧ r.fiscalYear = new.fiscalYear)) :
    upsertInsight tbl new = tbl ++ [new] := by
  unfold upsertInsight
  rw [if_neg]
  rw [List.any_eq_true]
  rintro ⟨r, hr, hc⟩
  rw [decide_eq_true_eq] at hc
  exact hfresh r hr hc

/-- C6 counterexample: with a service raising a rate-limit error on every one
of the 4 bounded attempts, a fresh unit ends the run with final status
`"extracted"` in the processing log — not `failed` or any equivalent — and
its attempts counter is 2 (one increment for `parsed`, one for `extracted`),
not 1. -/
theorem rateLimited_unit_counterexample :
    (processUnit [] (fun _ => .error "429 RESOURCE_EXHAUSTED: quota") "gemini-2.5-flash"
        ⟨[], [], []⟩ "AAPL" "tier1" 2023
        (.sections (some "mda text".data) none 8 0)).procLog =
      [(("AAPL", 2023), ⟨"extracted", none, 2⟩)] := by
  have hx : ∀ ft, extractGo (fun _ => Except.error "429 RESOURCE_EXHAUSTED: quota")
      "AAPL" 2023 ft 0 = buildNullSkeleton "AAPL" 2023 ft :=
    fun ft => extractGo_fail _ _ _ _ (fun _ _ _ _ hok => Except.noConfusion hok)
      MAX_RETRIES 0 (by omega)
  simp only [processUnit, apiWorkerStep, extract, hx]
  rfl

/-- C6 corrected: when the remote service fails every one of the 4 bounded
attempts for a fresh work unit (e.g. a rate-limit error each time), the unit
ends the run with final status `"extracted"` — the null-skeleton record is
persisted to the insights table and the JSONL log as if extraction had
succeeded, so the unit will not be re-attempted on the next run — and the
unit's attempts counter is incremented exactly twice over the run: once by
the `parsed` write and once by the `extracted` write. -/
theorem rateLimited_unit_spec (ff : List String) (b : Behaviour) (model : String)
    (st : StoreState) (ticker tier : String) (year : Int)
    (mda risk : Option (List Char)) (mc rc : Int)
    (hfail : ∀ k, k < MAX_RETRIES → ∃ e, b k = .error e)
    (hlog : ∀ p ∈ st.procLog, p.1 ≠ (ticker, year))
    (hins : ∀ r ∈ st.insights, ¬(r.ticker = ticker ∧ r.fiscalYear = year)) :
    (processUnit ff b model st ticker tier year (.sections mda risk mc rc)).procLog =
      st.procLog ++ [((ticker, year), ⟨"extracted", none, 2⟩)] ∧
    (processUnit ff b model st ticker tier year (.sections mda risk mc rc)).jsonl =
      st.jsonl ++ [buildNullSkeleton ticker year
        (if ff.contains ticker then "20-F" else "10-K")] ∧
    (processUnit ff b model st ticker tier year (.sections mda risk mc rc)).insights =
      st.insights ++ [insightRowOf ticker tier year
        (buildNullSkeleton ticker year (if ff.contains ticker then "20-F" else "10-K"))
        mc rc model] := by
  have hx : ∀ ft, extractGo b ticker year ft 0 = buildNullSkeleton ticker year ft :=
    fun ft => extractGo_fail b ticker year ft
      (fun j hj _ _ hok => by
        rcases hfail j hj with ⟨e, he⟩
        rw [he] at hok
        exact nomatch hok)
      MAX_RETRIES 0 (by omega)
  simp only [processUnit, apiWorkerStep, extract, hx]
  refine ⟨?_, ?_, ?_⟩
  · rw [logStatus_fresh st.procLog ticker year "parsed" none hlog,
      logStatus_update st.procLog ticker year ⟨"parsed", none, 1⟩ "extracted" none hlog]
  · trivial
  · exact upsertInsight_fresh st.insights _ hins

/-- Witness for `rateLimited_unit_spec` on a fresh store and an
always-unavailable service. -/
theorem rateLimited_unit_spec_witness :
    (processUnit [] (fun _ => .error "503 unavailable") "m" ⟨[], [], []⟩ "IBM" "tier2"
        2021 (.sections none none 0 0)).procLog =
      [(("IBM", 2021), ⟨"extracted", none, 2⟩)] := by
  have h := (rateLimited_unit_spec [] (fun _ => .error "503 unavailable") "m" ⟨[], [], []⟩
    "IBM" "tier2" 2021 none none 0 0 (fun _ _ => ⟨"503 unavailable", rfl⟩)
    (fun p hp => absurd hp (List.not_mem_nil p))
    (fun r hr => absurd hr (List.not_mem_nil r))).1
  simpa using h

theorem QInv_step {α : Type} {s s' : QState α} (hs : QInv s) (h : QStep s s') :
    QInv s' := by
  rcases hs with ⟨its, hp, hr⟩
  cases h with
  | item p rest w hw =>
    cases its with
    | nil =>
      exfalso
      cases w with
      | zero => simp at hp
      | succ w => rw [List.replicate_succ] at hp; simp at hp
    | cons a its' =>
      simp only [List.map_cons, List.cons_append, List.cons.injEq] at hp
      exact ⟨its', hp.2, fun _ => hr (by simp)⟩
  | sentinel rest w hw =>
    cases its with
    | cons a its' => simp at hp
    | nil =>
      simp only [List.map_nil, List.nil_append] at hp
      cases w with
      | zero => exact absurd hw (by omega)
      | succ w =>
        rw [List.replicate_succ, List.cons.injEq] at hp
        exact ⟨[], by simpa using hp.2, by simp⟩

theorem QInv_reach {α : Type} {s s' : QState α} (hs : QInv s) (h : QReach s s') :
    QInv s' := by
  induction h with
  | refl => exact hs
  | tail _ step ih => exact QInv_step ih step

theorem stuck_drained {α : Type} {s : QState α} (hs : QInv s)
    (hstuck : ¬∃ s', QStep s s') : s.pending = [] ∧ s.running = 0 := by
  rcases hs with ⟨its, hp, hr⟩
  rcases s with ⟨pending, running⟩
  dsimp only at hp hr ⊢
  cases pending with
  | nil =>
    refine ⟨rfl, ?_⟩
    cases its with
    | cons a its' => simp at hp
    | nil =>
      simp only [List.map_nil, List.nil_append] at hp
      cases running with
      | zero => rfl
      | succ r => rw [List.replicate_succ] at hp; exact absurd hp (by simp)
  | cons m rest =>
    exfalso
    cases running with
    | succ r =>
      apply hstuck
      cases m with
      | item p => exact ⟨⟨rest, r + 1⟩, QStep.item p rest (r + 1) (by omega)⟩
      | sentinel => exact ⟨⟨rest, r⟩, QStep.sentinel rest (r + 1) (by omega)⟩
    | zero =>
      cases its with
      | nil => simp at hp
      | cons a its' => exact absurd (hr (by simp)) (by omega)

theorem QStep_length {α : Type} {s s' : QState α} (h : QStep s s') :
    s'.pending.length < s.pending.length := by
  cases h <;> simp

theorem countP_isSentinel_replicate {α : Type} (W : Nat) :
    (List.replicate W (Msg.sentinel (α := α))).countP isSentinel = W := by
  induction W with
  | zero => rfl
  | succ n ih => rw [List.replicate_succ, List.countP_cons]; simp [isSentinel, ih]

/-- C8: whether the fetch/parse stage finishes normally or raises, the
coordinator enqueues exactly one stage-end sentinel per analysis worker into
the hand-off queue; from that queue content, every scheduling of the analysis
workers takes finitely many steps (each dequeues one message), and any state
from which no step is possible has an empty queue and no running worker — so
every analysis worker observes termination and none blocks forever, and the
run completes with both stages drained. -/
theorem shutdown_protocol_spec {α : Type} (dlPuts : List α) (dlExn : Option String)
    (W : Nat) (hW : 0 < W) :
    (coordinatorEnqueues dlPuts dlExn W).countP isSentinel = W ∧
    (∀ s', QReach ⟨coordinatorEnqueues dlPuts dlExn W, W⟩ s' →
      (¬∃ s'', QStep s' s'') → s'.pending = [] ∧ s'.running = 0) ∧
    (∀ s s' : QState α, QStep s s' → s'.pending.length < s.pending.length) := by
  have hstream : coordinatorEnqueues dlPuts dlExn W =
      dlPuts.map Msg.item ++ List.replicate W Msg.sentinel := by
    unfold coordinatorEnqueues
    cases dlExn <;> rfl
  refine ⟨?_, ?_, fun s s' h => QStep_length h⟩
  · rw [hstream, List.countP_append, countP_isSentinel_replicate]
    have h0 : (dlPuts.map (Msg.item (α := α))).countP isSentinel = 0 := by
      rw [List.countP_eq_zero]
      rintro m hm
      rcases List.mem_map.mp hm with ⟨p, -, rfl⟩
      simp [isSentinel]
    rw [h0, Nat.zero_add]
  · intro s' hreach hstuck
    exact stuck_drained (QInv_reach ⟨dlPuts, by rw [hstream], fun _ => hW⟩ hreach) hstuck

/-- Witness for `shutdown_protocol_spec`: one worker, no payloads, fetch
stage crashed; the single sentinel is enqueued and the terminal state is
fully drained. -/
theorem shutdown_protocol_spec_witness :
    (coordinatorEnqueues ([] : List Nat) (some "download crashed") 1).countP
      isSentinel = 1 ∧
    ((⟨[], 0⟩ : QState Nat).pending = [] ∧ (⟨[], 0⟩ : QState Nat).running = 0) := by
  have h := shutdown_protocol_spec ([] : List Nat) (some "download crashed") 1 (by omega)
  refine ⟨h.1, h.2.1 ⟨[], 0⟩ ?_ ?_⟩
  · exact Relation.ReflTransGen.single (QStep.sentinel [] 1 (by omega))
  · rintro ⟨s'', hstep⟩
    cases hstep

theorem truncMarker_bracket : ∀ k, truncMarker.get? k = some '[' → k = 2 := by
  intro k hk
  have hlen : k < truncMarker.length := by
    rw [List.get?_eq_getElem?] at hk
    rcases List.getElem?_eq_some.mp hk with ⟨hl, -⟩
    exact hl
  have hlen21 : k < 21 := by
    have : truncMarker.length = 21 := rfl
    omega
  interval_cases k <;> first
    | rfl
    | exact absurd hk (by decide)

theorem marker_occ_unique (h t : List Char) (hh : '[' ∉ h) (ht : '[' ∉ t) :
    numOccs truncMarker (h ++ (truncMarker ++ t)) = 1 := by
  have hm21 : truncMarker.length = 21 := rfl
  have hbr : ∀ j, (h ++ (truncMarker ++ t)).get? j = some '[' → j = h.length + 2 := by
    intro j hj
    rw [List.get?_eq_getElem?] at hj
    rcases Nat.lt_or_ge j h.length with hlt | hge
    · rw [List.getElem?_append_left hlt] at hj
      exact absurd (List.getElem?_mem hj) hh
    · rw [List.getElem?_append_right hge] at hj
      rcases Nat.lt_or_ge (j - h.length) truncMarker.length with hlt2 | hge2
      · rw [List.getElem?_append_left hlt2] at hj
        have h2 := truncMarker_bracket (j - h.length)
          (by rw [List.get?_eq_getElem?]; exact hj)
        omega
      · rw [List.getElem?_append_right hge2] at hj
        exact absurd (List.getElem?_mem hj) ht
  have hocc : ∀ i, matchesAt truncMarker (h ++ (truncMarker ++ t)) i = true →
      i = h.length := by
    intro i hi
    unfold matchesAt at hi
    rcases List.isPrefixOf_iff_prefix.mp hi with ⟨rest, hrest⟩
    have hilen : i ≤ h.length + (21 + t.length) := by
      have hlen := congrArg List.length hrest
      simp only [List.length_append, List.length_drop] at hlen
      rw [hm21] at hlen
      omega
    have hsplit : h ++ (truncMarker ++ t) =
        (h ++ (truncMarker ++ t)).take i ++ (truncMarker ++ rest) := by
      conv_lhs => rw [← List.take_append_drop i (h ++ (truncMarker ++ t))]
      rw [hrest]
    have htklen : ((h ++ (truncMarker ++ t)).take i).length = i := by
      rw [List.length_take]
      simp only [List.length_append]
      rw [hm21]
      omega
    have h2 : (h ++ (truncMarker ++ t)).get? (i + 2) = some '[' := by
      rw [List.get?_eq_getElem?]
      conv_lhs => rw [hsplit]
      rw [List.getElem?_append_right (by rw [htklen]; omega)]
      have hidx : i + 2 - ((h ++ (truncMarker ++ t)).take i).length = 2 := by
        rw [htklen]
        omega
      rw [hidx, List.getElem?_append_left (by decide)]
      decide
    have := hbr (i + 2) h2
    omega
  have hocc2 : matchesAt truncMarker (h ++ (truncMarker ++ t)) h.length = true := by
    unfold matchesAt
    rw [List.drop_left]
    exact List.isPrefixOf_iff_prefix.mpr (List.prefix_append truncMarker t)
  unfold numOccs
  rw [List.filter_congr (q := fun i => i == h.length) ?_]
  · have hnd : (List.range ((h ++ (truncMarker ++ t)).length + 1)).Nodup :=
      List.nodup_range _
    have hmem : h.length ∈ List.range ((h ++ (truncMarker ++ t)).length + 1) := by
      rw [List.mem_range]
      simp only [List.length_append]
      rw [hm21]
      omega
    have := List.count_eq_one_of_mem hnd hmem
    rw [List.count] at this
    rw [← List.countP_eq_length_filter]
    exact this
  · intro i _
    by_cases hi : i = h.length
    · subst hi
      rw [hocc2]
      simp
    · rcases hmi : matchesAt truncMarker (h ++ (truncMarker ++ t)) i with _ | _
      · simp [hi]
      · exact absurd (hocc i hmi) hi

/-- C3 counterexample: `_smart_truncate` violates the claim on two counts —
with budget 5 (smaller than the marker) the output is 26 characters long,
far over budget (the negative slice arithmetic keeps a tail plus the whole
marker); and an input that already contains the marker yields an output
containing the marker twice, not exactly once. -/
theorem smartTruncate_counterexample :
    ¬((smartTruncate "0123456789".data 5).length ≤ 5) ∧
    numOccs truncMarker
      (smartTruncate (truncMarker ++ List.replicate 40 'x') 60) ≠ 1 := by
  constructor
  · decide
  · decide

/-- C3 amended: provided the character budget exceeds the marker's length
and the input text contains no '[' character (so the marker can occur
neither inside the copied head/tail nor straddling a splice boundary):
an input within budget is returned unchanged; a longer input yields an
output of length at most (indeed exactly) the budget that contains the
truncation marker exactly once and equals
`text.take front ++ marker ++ text.drop (len - rear)` — its head a verbatim
prefix and its tail a verbatim suffix of the input — for some split with
`front + markerLen + rear = budget` and a nonempty tail share. -/
theorem smartTruncate_spec (text : List Char) (maxChars : Nat)
    (hm : truncMarker.length < maxChars) (hclean : '[' ∉ text) :
    (text.length ≤ maxChars → smartTruncate text maxChars = text) ∧
    (maxChars < text.length →
      (smartTruncate text maxChars).length ≤ maxChars ∧
      numOccs truncMarker (smartTruncate text maxChars) = 1 ∧
      ∃ front rear : Nat, 0 < rear ∧
        front + truncMarker.length + rear = maxChars ∧
        smartTruncate text maxChars =
          text.take front ++ (truncMarker ++ text.drop (text.length - rear))) := by
  have hm21 : truncMarker.length = 21 := rfl
  rw [hm21] at hm
  constructor
  · intro hle
    unfold smartTruncate
    rw [if_pos hle]
  · intro hgt
    have htd : (7 * ((maxChars : Int) - (truncMarker.length : Nat))).tdiv 10 =
        7 * ((maxChars : Int) - 21) / 10 := by
      rw [hm21]
      exact Int.tdiv_eq_ediv (by omega) (by omega)
    have hF0 : 0 ≤ 7 * ((maxChars : Int) - 21) / 10 := by omega
    have hFlt : 7 * ((maxChars : Int) - 21) / 10 < (maxChars : Int) - 21 := by omega
    unfold smartTruncate
    rw [if_neg (by omega)]
    dsimp only
    rw [htd]
    set F : Int := 7 * ((maxChars : Int) - 21) / 10 with hFdef
    set R : Int := ((maxChars : Int) - (truncMarker.length : Nat)) - F with hRdef
    have hR : R = (maxChars : Int) - 21 - F := by
      rw [hRdef, hm21]
      norm_num
    have hR1 : 1 ≤ R := by omega
    have hsliceTo : pySliceTo text F = text.take F.toNat := by
      unfold pySliceTo
      rw [if_neg (by omega)]
    have hsliceFrom : pySliceFrom text (-R) = text.drop (text.length - R.toNat) := by
      unfold pySliceFrom
      rw [if_pos (by omega)]
      congr 1
      omega
    rw [hsliceTo, hsliceFrom, List.append_assoc]
    have hhead : '[' ∉ text.take F.toNat :=
      fun hmem => hclean (List.take_subset _ _ hmem)
    have htail : '[' ∉ text.drop (text.length - R.toNat) :=
      fun hmem => hclean (List.drop_subset _ _ hmem)
    refine ⟨?_, marker_occ_unique _ _ hhead htail, F.toNat, R.toNat, by omega, ?_, rfl⟩
    · simp only [List.length_append, List.length_take, List.length_drop, hm21]
      omega
    · rw [hm21]
      omega

/-- Witness for `smartTruncate_spec`: a 30-character bracket-free input with
budget 25 both stays within budget and contains the marker exactly once. -/
theorem smartTruncate_spec_witness :
    (smartTruncate (List.replicate 30 'a') 25).length ≤ 25 ∧
    numOccs truncMarker (smartTruncate (List.replicate 30 'a') 25) = 1 :=
  have h := (smartTruncate_spec (List.replicate 30 'a') 25 (by decide) (by decide)).2
    (by decide)
  ⟨h.1, h.2.1⟩

theorem findIter_shape (pat : List Char) (text : List Char) (i : Nat) :
    ∀ m ∈ findIter pat text i,
      ∃ j, m.1 = i + j ∧ m.2 = m.1 + pat.length ∧
        pat.isPrefixOf (text.drop j) = true := by
  induction text, i using findIter.induct pat with
  | case1 i =>
    intro m hm
    rw [findIter] at hm
    exact absurd hm (List.not_mem_nil m)
  | case2 c rest i hcond ih =>
    intro m hm
    rw [findIter, if_pos hcond] at hm
    have hp1 : 1 ≤ pat.length := by
      have := hcond.1
      cases hpat : pat with
      | nil => exact absurd hpat this
      | cons a as => simp [hpat]
    rcases List.mem_cons.mp hm with rfl | hm'
    · exact ⟨0, by omega, rfl, by simpa using hcond.2⟩
    · rcases ih m hm' with ⟨j', hj1, hj2, hj3⟩
      refine ⟨pat.length + j', by omega, hj2, ?_⟩
      rw [List.drop_drop] at hj3
      have hdrop : (c :: rest).drop (pat.length + j') = rest.drop (pat.length - 1 + j') := by
        have : pat.length + j' = (pat.length - 1 + j') + 1 := by omega
        rw [this, List.drop_succ_cons]
      rw [hdrop]
      exact hj3
  | case3 c rest i hcond ih =>
    intro m hm
    rw [findIter, if_neg hcond] at hm
    rcases ih m hm with ⟨j', hj1, hj2, hj3⟩
    refine ⟨1 + j', by omega, hj2, ?_⟩
    have hdrop : (c :: rest).drop (1 + j') = rest.drop j' := by
      rw [Nat.add_comm, List.drop_succ_cons]
    rw [hdrop]
    exact hj3

theorem findIter_sorted (pat : List Char) (text : List Char) (i : Nat) :
    (findIter pat text i).Pairwise (fun a b => a.1 < b.1) := by
  induction text, i using findIter.induct pat with
  | case1 i =>
    rw [findIter]
    exact List.Pairwise.nil
  | case2 c rest i hcond ih =>
    rw [findIter, if_pos hcond]
    refine List.Pairwise.cons ?_ ih
    intro b hb
    rcases findIter_shape pat _ _ b hb with ⟨j, hj1, -, -⟩
    have hp1 : 1 ≤ pat.length := by
      have := hcond.1
      cases hpat : pat with
      | nil => exact absurd hpat this
      | cons a as => simp [hpat]
    simp only
    omega
  | case3 c rest i hcond ih =>
    rw [findIter, if_neg hcond]
    exact ih

theorem matchesAt_of_mem_findIter (pat text : List Char) (m : Nat × Nat)
    (hm : m ∈ findIter pat text 0) :
    matchesAt pat text m.1 = true ∧ m.2 = m.1 + pat.length := by
  rcases findIter_shape pat text 0 m hm with ⟨j, hj1, hj2, hj3⟩
  have : m.1 = j := by omega
  subst this
  exact ⟨hj3, hj2⟩

theorem findIter_eq_nil_of_no_match (pat text : List Char)
    (hno : ∀ j, matchesAt pat text j = false) : findIter pat text 0 = [] := by
  cases hL : findIter pat text 0 with
  | nil => rfl
  | cons m ms =>
    exfalso
    have hm : m ∈ findIter pat text 0 := by rw [hL]; exact List.mem_cons_self m ms
    have := (matchesAt_of_mem_findIter pat text m hm).1
    rw [hno m.1] at this
    exact Bool.noConfusion this

theorem bestMatch_none_of_nil (text pat : List Char)
    (hL : findIter pat text 0 = []) : bestMatch text pat = none := by
  unfold bestMatch
  split
  · rfl
  · rename_i m ms heq
    rw [hL] at heq
    exact absurd heq (by simp)

theorem bestMatch_spec (text pat : List Char) (m : Nat × Nat)
    (hbm : bestMatch text pat = some m) :
    m ∈ findIter pat text 0 ∧
    ((∃ r ∈ findIter pat text 0, 2000 < text.length - r.2) →
      2000 < text.length - m.2 ∧
      ∀ r ∈ findIter pat text 0, 2000 < text.length - r.2 → r.1 ≤ m.1) ∧
    ((∀ r ∈ findIter pat text 0, ¬(2000 < text.length - r.2)) →
      ∀ hne : findIter pat text 0 ≠ [],
        m = (findIter pat text 0).getLast hne) := by
  unfold bestMatch at hbm
  split at hbm
  · exact absurd hbm (by simp)
  · rename_i m' ms heq
    rw [Option.some.injEq] at hbm
    cases hfind : (m' :: ms).reverse.find? fun r => decide (2000 < text.length - r.2) with
    | some r =>
      rw [hfind] at hbm
      simp only [Option.getD_some] at hbm
      subst hbm
      rcases List.find?_eq_some.mp hfind with ⟨hP, as, bs, hsplit, hfail⟩
      rw [decide_eq_true_eq] at hP
      have hmem : r ∈ findIter pat text 0 := by
        rw [heq, ← List.mem_reverse, hsplit]
        simp
      have hLrev : m' :: ms = bs.reverse ++ r :: as.reverse := by
        have := congrArg List.reverse hsplit
        simpa [List.reverse_append] using this
      refine ⟨hmem, fun _ => ⟨hP, ?_⟩, fun hnone _ => absurd hP (hnone r hmem)⟩
      intro r' hr' hPr'
      rw [heq, hLrev] at hr'
      have hsorted : (bs.reverse ++ r :: as.reverse).Pairwise
          (fun a b => a.1 < b.1) := by
        have := findIter_sorted pat text 0
        rw [heq, hLrev] at this
        exact this
      rcases List.mem_append.mp hr' with hbs | hcons
      · have := (List.pairwise_append.mp hsorted).2.2 r' hbs r (by simp)
        omega
      · rcases List.mem_cons.mp hcons with rfl | has
        · exact le_refl _
        · exfalso
          have hnr : ¬(2000 < text.length - r'.2) := by
            have hf := hfail r' (by simpa using has)
            simpa using hf
          exact hnr hPr'
    | none =>
      rw [hfind] at hbm
      simp only [Option.getD_none] at hbm
      subst hbm
      have hnoP : ∀ r ∈ findIter pat text 0, ¬(2000 < text.length - r.2) := by
        intro r hr
        have hr' : r ∈ (m' :: ms).reverse := by
          rw [List.mem_reverse]
          rw [heq] at hr
          exact hr
        have := List.find?_eq_none.mp hfind r hr'
        simpa using this
      refine ⟨?_, ?_, ?_⟩
      · rw [heq]
        exact List.getLast_mem _
      · rintro ⟨r, hr, hPr⟩
        exact absurd hPr (hnoP r hr)
      · intro _ hne
        have h1 : (findIter pat text 0).getLast? =
            some ((m' :: ms).getLast (by simp)) := by
          rw [heq]
          exact List.getLast?_eq_getLast _ _
        have h2 : (findIter pat text 0).getLast? =
            some ((findIter pat text 0).getLast hne) :=
          List.getLast?_eq_getLast _ hne
        rw [h1] at h2
        exact Option.some.inj h2

theorem searchFrom_some (pat text : List Char) (start : Nat) (em : Nat × Nat)
    (h : searchFrom pat text start = some em) :
    start ≤ em.1 ∧ em.1 ≤ text.length ∧ em.2 = em.1 + pat.length ∧
    matchesAt pat text em.1 = true ∧
    ∀ i, start ≤ i → i < em.1 → matchesAt pat text i = false := by
  unfold searchFrom at h
  rcases Option.map_eq_some'.mp h with ⟨j, hfind, hj⟩
  subst hj
  rcases List.find?_eq_some.mp hfind with ⟨hq, as, bs, hsplit, hfail⟩
  simp only [Bool.and_eq_true, decide_eq_true_eq] at hq
  obtain ⟨⟨hstart, hpat⟩, hmatch⟩ := hq
  have hjlt : j < text.length + 1 := by
    have : j ∈ List.range (text.length + 1) := by rw [hsplit]; simp
    exact List.mem_range.mp this
  refine ⟨hstart, by omega, rfl, hmatch, ?_⟩
  intro i hsi hilt
  have hjeq : j = as.length := by
    have h1 : (List.range (text.length + 1))[as.length]? = some j := by
      rw [hsplit, List.getElem?_append_right (le_refl _)]
      simp
    have hlt : as.length < text.length + 1 := by
      have hlen := congrArg List.length hsplit
      simp only [List.length_range, List.length_append, List.length_cons] at hlen
      omega
    rw [List.getElem?_range hlt] at h1
    exact (Option.some.inj h1).symm
  have hias : i ∈ as := by
    have h1 : (List.range (text.length + 1))[i]? = some i :=
      List.getElem?_range (by omega)
    rw [hsplit, List.getElem?_append_left (by omega)] at h1
    exact List.getElem?_mem h1
  have hqi := hfail i hias
  simp only [Bool.not_eq_eq_eq_not, Bool.not_true, Bool.and_eq_false_iff,
    decide_eq_false_iff_not] at hqi
  rcases hqi with hq1 | hq2
  · rcases hq1 with hq1a | hq1b
    · exact absurd hsi hq1a
    · exact absurd hpat hq1b
  · exact hq2

theorem searchFrom_none (pat text : List Char) (start : Nat)
    (hpat : pat ≠ []) (h : searchFrom pat text start = none) :
    ∀ i, start ≤ i → i ≤ text.length → matchesAt pat text i = false := by
  unfold searchFrom at h
  rw [Option.map_eq_none'] at h
  intro i hsi hil
  have := List.find?_eq_none.mp h i (List.mem_range.mpr (by omega))
  simpa [hsi, hpat] using this

theorem endPosFrom_spec (text : List Char) (start : Nat) :
    ∀ (endPats : List (List Char)) (e0 : Nat), e0 ≤ text.length →
      endPosFrom text start endPats e0 ≤ e0 ∧
      (∀ ep ∈ endPats, ∀ em, searchFrom ep text start = some em →
        endPosFrom text start endPats e0 ≤ em.1) ∧
      (endPosFrom text start endPats e0 = e0 ∨
        ∃ ep ∈ endPats, ∃ em, searchFrom ep text start = some em ∧
          endPosFrom text start endPats e0 = em.1) := by
  intro endPats
  induction endPats with
  | nil =>
    intro e0 he0
    refine ⟨le_refl _, ?_, .inl rfl⟩
    intro ep hep
    exact absurd hep (List.not_mem_nil ep)
  | cons ep rest ih =>
    intro e0 he0
    have hstep : endPosFrom text start (ep :: rest) e0 =
        endPosFrom text start rest
          (match searchFrom ep text start with
           | some em => if em.1 < e0 then em.1 else e0
           | none => e0) := by
      unfold endPosFrom
      rw [List.foldl_cons]
    cases hsf : searchFrom ep text start with
    | none =>
      rw [hsf] at hstep
      dsimp only at hstep
      rcases ih e0 he0 with ⟨h1, h2, h3⟩
      rw [hstep]
      refine ⟨h1, ?_, ?_⟩
      · intro ep' hep' em hem
        rcases List.mem_cons.mp hep' with rfl | hmem
        · rw [hsf] at hem
          exact absurd hem (by simp)
        · exact h2 ep' hmem em hem
      · rcases h3 with h | ⟨ep', hep', em, hem, heq⟩
        · exact .inl h
        · exact .inr ⟨ep', List.mem_cons_of_mem ep hep', em, hem, heq⟩
    | some em0 =>
      rw [hsf] at hstep
      dsimp only at hstep
      have hem0 := searchFrom_some ep text start em0 hsf
      by_cases hlt : em0.1 < e0
      · rw [if_pos hlt] at hstep
        rcases ih em0.1 (by omega) with ⟨h1, h2, h3⟩
        rw [hstep]
        refine ⟨by omega, ?_, ?_⟩
        · intro ep' hep' em hem
          rcases List.mem_cons.mp hep' with rfl | hmem
          · rw [hsf] at hem
            rw [← Option.some.inj hem]
            exact h1
          · exact h2 ep' hmem em hem
        · rcases h3 with h | ⟨ep', hep', em, hem, heq⟩
          · exact .inr ⟨ep, List.mem_cons_self ep rest, em0, hsf, h⟩
          · exact .inr ⟨ep', List.mem_cons_of_mem ep hep', em, hem, heq⟩
      · rw [if_neg hlt] at hstep
        rcases ih e0 he0 with ⟨h1, h2, h3⟩
        rw [hstep]
        refine ⟨h1, ?_, ?_⟩
        · intro ep' hep' em hem
          rcases List.mem_cons.mp hep' with rfl | hmem
          · rw [hsf] at hem
            rw [← Option.some.inj hem]
            omega
          · exact h2 ep' hmem em hem
        · rcases h3 with h | ⟨ep', hep', em, hem, heq⟩
          · exact .inl h
          · exact .inr ⟨ep', List.mem_cons_of_mem ep hep', em, hem, heq⟩

/-- C4: the section extractor chooses as section start the last start-marker
occurrence leaving more than 2000 characters of trailing text, falling back
to the very last occurrence when none does; the section runs from the end of
that marker to the nearest following end-marker occurrence (or document end
when no end marker follows), stripped of surrounding whitespace; a document
with no start-marker occurrence yields `none`, and an empty section is
reported as `none`, never as an empty string. -/
theorem extractBetween_spec (text startPat : List Char)
    (endPats : List (List Char)) :
    ((∀ j, matchesAt startPat text j = false) →
      extractBetween text startPat endPats = none) ∧
    extractBetween text startPat endPats ≠ some [] ∧
    (∀ m, bestMatch text startPat = some m →
      (m ∈ findIter startPat text 0 ∧ m.2 = m.1 + startPat.length ∧
        matchesAt startPat text m.1 = true) ∧
      ((∃ r ∈ findIter startPat text 0, 2000 < text.length - r.2) →
        2000 < text.length - m.2 ∧
        ∀ r ∈ findIter startPat text 0, 2000 < text.length - r.2 → r.1 ≤ m.1) ∧
      ((∀ r ∈ findIter startPat text 0, ¬(2000 < text.length - r.2)) →
        ∀ hne : findIter startPat text 0 ≠ [],
          m = (findIter startPat text 0).getLast hne) ∧
      (∃ e, e ≤ text.length ∧
        (∀ ep ∈ endPats, ∀ em, searchFrom ep text m.2 = some em → e ≤ em.1) ∧
        (e = text.length ∨ ∃ ep ∈ endPats, ∃ em,
          searchFrom ep text m.2 = some em ∧ e = em.1) ∧
        (∀ ep ∈ endPats, ∀ em, searchFrom ep text m.2 = some em →
          m.2 ≤ em.1 ∧ matchesAt ep text em.1 = true ∧
          ∀ i, m.2 ≤ i → i < em.1 → matchesAt ep text i = false) ∧
        extractBetween text startPat endPats =
          (if pyStrip (pySlice text m.2 e) = [] then none
           else some (pyStrip (pySlice text m.2 e))))) := by
  refine ⟨?_, ?_, ?_⟩
  · intro hno
    unfold extractBetween
    rw [bestMatch_none_of_nil text startPat
      (findIter_eq_nil_of_no_match startPat text hno)]
  · unfold extractBetween
    cases hbm : bestMatch text startPat with
    | none => simp
    | some m =>
      dsimp only
      split
      · simp
      · rename_i hne
        intro hcontra
        rw [Option.some.injEq] at hcontra
        exact hne hcontra
  · intro m hbm
    have hb := bestMatch_spec text startPat m hbm
    have hmf := matchesAt_of_mem_findIter startPat text m hb.1
    refine ⟨⟨hb.1, hmf.2, hmf.1⟩, hb.2.1, hb.2.2, ?_⟩
    have hep := endPosFrom_spec text m.2 endPats text.length (le_refl _)
    refine ⟨endPosFrom text m.2 endPats text.length, hep.1, hep.2.1, hep.2.2,
      ?_, ?_⟩
    · intro ep hepmem em hem
      have hs := searchFrom_some ep text m.2 em hem
      exact ⟨hs.1, hs.2.2.2.1, hs.2.2.2.2⟩
    · unfold extractBetween
      rw [hbm]

unseal findIter in
/-- Witness for `extractBetween_spec` on a synthetic document: the section
between the "ITEM7" marker and the following "ITEM8" marker is extracted and
stripped. -/
theorem extractBetween_spec_witness :
    extractBetween "aaITEM7 hello ITEM8zz".data "ITEM7".data
      ["ITEM7A".data, "ITEM8".data] = some "hello".data := by
  have hbm : bestMatch "aaITEM7 hello ITEM8zz".data "ITEM7".data = some (2, 7) := by
    decide
  have h := (extractBetween_spec "aaITEM7 hello ITEM8zz".data "ITEM7".data
    ["ITEM7A".data, "ITEM8".data]).2.2 (2, 7) hbm
  rcases h.2.2.2 with ⟨e, he1, he2, he3, he4, heq⟩
  have hsf8 : searchFrom "ITEM8".data "aaITEM7 hello ITEM8zz".data 7 =
      some (14, 19) := by decide
  have hsf7a : searchFrom "ITEM7A".data "aaITEM7 hello ITEM8zz".data 7 = none := by
    decide
  have he14 : e = 14 := by
    have hle : e ≤ 14 := he2 "ITEM8".data (by decide) (14, 19) hsf8
    rcases he3 with h21 | ⟨ep, hepmem, em, hem, heq'⟩
    · exfalso
      rw [h21] at hle
      have : ("aaITEM7 hello ITEM8zz".data).length = 21 := by decide
      omega
    · rcases List.mem_cons.mp hepmem with rfl | hmem
      · have hem2 : searchFrom "ITEM7A".data "aaITEM7 hello ITEM8zz".data 7 =
            some em := hem
        rw [hsf7a] at hem2
        exact absurd hem2 (by simp)
      · rcases List.mem_cons.mp hmem with rfl | hmem'
        · have hem2 : searchFrom "ITEM8".data "aaITEM7 hello ITEM8zz".data 7 =
              some em := hem
          rw [hsf8] at hem2
          rw [heq', ← Option.some.inj hem2]
        · exact absurd hmem' (List.not_mem_nil ep)
  rw [heq, he14]
  decide

end USStock
